import Mathlib

/-
  Shallow embedding of the persistence and search-index layer of the
  discord soundboard bot (src/db.rs), together with proofs about the
  claims of the specification.

  Machine integers (i64, u64) are modelled as Int and Nat; SQL text
  values are modelled as String (Lean String is a list of unicode
  scalar values, as is Rust String); fallible operations return Except
  or Option.  Each definition is translated from the source; the one
  definition translated from the wording of the spec instead is
  NormalizedSyncInv, used to compare the spec against the code.
-/

namespace SoundboardDb

/-
  TextNormalizer: fts_clean_text from src/db.rs.

  The Rust code removes apostrophes, replaces every char that is not
  in the regex class [a-zA-Z0-9, ] by a space, collapses every run of
  two or more whitespace chars into a single space, and trims.
-/

/-- Character 39, the apostrophe removed by text.replace in fts_clean_text. -/
def isApostrophe (c : Char) : Bool := c.toNat = 39

/-- Membership in the regex character class [a-zA-Z0-9, ] of fts_clean_text. -/
def isKeptChar (c : Char) : Bool :=
  (97 ≤ c.toNat && c.toNat ≤ 122) || (65 ≤ c.toNat && c.toNat ≤ 90) ||
    (48 ≤ c.toNat && c.toNat ≤ 57) || c.toNat == 44 || c.toNat == 32

/-- Unicode whitespace, the character class matched by the regex escape for
whitespace in the Rust regex crate and by the trim method of Rust strings
(the White_Space code points). -/
def isWS (c : Char) : Bool :=
  [9, 10, 11, 12, 13, 32, 133, 160, 5760, 8192, 8193, 8194, 8195, 8196, 8197,
    8198, 8199, 8200, 8201, 8202, 8232, 8233, 8239, 8287, 12288].contains c.toNat

/-- Replacement of every maximal run of two or more whitespace characters by a
single space character: the second regex replace_all of fts_clean_text.
A lone whitespace character is left unchanged, exactly as the regex, which
matches only runs of length at least two. -/
def collapseWS : List Char → List Char
  | [] => []
  | [c] => [c]
  | c1 :: c2 :: rest =>
    if isWS c1 && isWS c2 then ' ' :: (collapseWS (c2 :: rest)).tail
    else c1 :: collapseWS (c2 :: rest)

/-- Removal of trailing whitespace, half of the trim at the end of
fts_clean_text. -/
def trimTrailingWS : List Char → List Char
  | [] => []
  | c :: t =>
    let r := trimTrailingWS t
    if r.isEmpty && isWS c then [] else c :: r

/-- The trim method of Rust strings: leading and trailing whitespace removed. -/
def trimWS (l : List Char) : List Char := trimTrailingWS (l.dropWhile isWS)

/-- fts_clean_text of src/db.rs on the underlying character list: remove
apostrophes, replace every character outside [a-zA-Z0-9, ] by a space,
collapse whitespace runs, trim. -/
def fts_clean_chars (l : List Char) : List Char :=
  trimWS (collapseWS ((l.filter (fun c => !(isApostrophe c))).map
    (fun c => if isKeptChar c then c else ' ')))

/-- fts_clean_text of src/db.rs. -/
def fts_clean_text (s : String) : String := String.mk (fts_clean_chars s.data)

/-
  Data model: the audio table rows and the fts5 shadow table rows.

  AudioTableRow is the Rust struct of src/db.rs; audio_file (an
  AudioFile path wrapper) and created_at (a chrono timestamp stored in
  the DATETIME_FMT string format) are modelled by their stored string
  forms, author_id (u64) by Nat.
-/

structure AudioTableRow where
  id : Int
  name : String
  tags : String
  audio_file : String
  created_at : String
  author_id : Option Nat
  author_name : Option String
  author_global_name : Option String
deriving DecidableEq

/-- AudioTableRowInsert of src/db.rs: an insert payload, all columns but id. -/
structure AudioTableRowInsert where
  name : String
  tags : String
  audio_file : String
  created_at : String
  author_id : Option Nat
  author_name : Option String
  author_global_name : Option String
deriving DecidableEq

/-- One row of the fts5_audio virtual table: the search-index entry, keyed by
the rowid of the audio table. -/
structure FtsRow where
  rowid : Int
  name : String
  audio_file : String
deriving DecidableEq

/-- The database state: the audio table content and the fts5_audio index
content. -/
structure DbState where
  audio : List AudioTableRow
  fts : List FtsRow
deriving DecidableEq

/-- The index entry the audio_insert trigger writes for a row: rowid, name and
audio_file are copied verbatim from new.id, new.name, new.audio_file. -/
def entryOf (r : AudioTableRow) : FtsRow := ⟨r.id, r.name, r.audio_file⟩

/-- The row an SQL insert of the payload builds once the rowid is assigned. -/
def rowOfInsert (i : Int) (x : AudioTableRowInsert) : AudioTableRow :=
  ⟨i, x.name, x.tags, x.audio_file, x.created_at, x.author_id, x.author_name,
    x.author_global_name⟩

/-- The row an SQL update leaves behind: the id is untouched, every other
column is set from the payload. -/
def updatedRow (r : AudioTableRow) (x : AudioTableRowInsert) : AudioTableRow :=
  ⟨r.id, x.name, x.tags, x.audio_file, x.created_at, x.author_id, x.author_name,
    x.author_global_name⟩

/-- Largest id present in the table (0 for the empty table). -/
def maxId (tbl : List AudioTableRow) : Int :=
  tbl.foldr (fun r m => max r.id m) 0

/-- The rowid sqlite assigns to a value insert on a table declared with
INTEGER PRIMARY KEY: one more than the largest rowid in use. -/
def freshId (tbl : List AudioTableRow) : Int := 1 + maxId tbl

/-
  The three triggers installed by AudioTable::create_table keep the
  fts5_audio index in step with SQL writes on the audio table.  DbOp is
  a write on the primary table (the record store exposes insert and
  delete-by-path; an update can reach the table by direct SQL, which is
  why the schema carries an update trigger).  applyOp is the combined
  effect of the write and of the trigger that fires with it; a write
  rejected by a UNIQUE or PRIMARY KEY constraint leaves the state
  unchanged and fires no trigger.
-/

inductive DbOp where
  | insert (x : AudioTableRowInsert)
  | deleteByAudioFile (path : String)
  | update (i : Int) (x : AudioTableRowInsert)

def applyOp (s : DbState) (op : DbOp) : DbState :=
  match op with
  | DbOp.insert x =>
    if s.audio.any (fun r => r.name == x.name || r.audio_file == x.audio_file) then s
    else
      let r := rowOfInsert (freshId s.audio) x
      ⟨s.audio ++ [r], s.fts ++ [entryOf r]⟩
  | DbOp.deleteByAudioFile p =>
    let victims := s.audio.filter (fun r => r.audio_file == p)
    ⟨s.audio.filter (fun r => !(r.audio_file == p)),
      s.fts.filter (fun e => !(victims.any (fun v => v.id == e.rowid)))⟩
  | DbOp.update i x =>
    if s.audio.any (fun r => r.id == i) then
      if s.audio.any (fun r => !(r.id == i) && (r.name == x.name || r.audio_file == x.audio_file)) then s
      else
        ⟨s.audio.map (fun r => if r.id == i then updatedRow r x else r),
          (s.fts.filter (fun e => !(e.rowid == i))) ++
            ((s.audio.filter (fun r => r.id == i)).map (fun r => entryOf (updatedRow r x)))⟩
    else s

/-- The state of the freshly created schema: both tables empty. -/
def initialState : DbState := ⟨[], []⟩

/-- The state after a sequence of primary-table writes starting from the fresh
schema. -/
def runOps (ops : List DbOp) : DbState := ops.foldl applyOp initialState

/-- Index consistency as the triggers actually maintain it: every live row has
exactly one index entry, carrying the raw name and audio_file of the row, and
every index entry belongs to a live row (so a deleted row has no entry). -/
def SyncInv (s : DbState) : Prop :=
  (∀ r ∈ s.audio, s.fts.filter (fun e => e.rowid == r.id) = [entryOf r]) ∧
    (∀ e ∈ s.fts, ∃ r ∈ s.audio, e.rowid = r.id)

/-- Index consistency as the specification words it: the entry of a live row
is claimed to hold the TextNormalizer-normalized forms of name and
audio_file_path.  This definition follows the spec wording, to be compared
with SyncInv, which follows the code. -/
def NormalizedSyncInv (s : DbState) : Prop :=
  (∀ r ∈ s.audio, s.fts.filter (fun e => e.rowid == r.id) =
      [FtsRow.mk r.id (fts_clean_text r.name) (fts_clean_text r.audio_file)]) ∧
    (∀ e ∈ s.fts, ∃ r ∈ s.audio, e.rowid = r.id)

/-- Distinctness of primary keys, as INTEGER PRIMARY KEY enforces. -/
def IdsDistinct (s : DbState) : Prop :=
  s.audio.Pairwise (fun a b => a.id ≠ b.id)

def DbInv (s : DbState) : Prop := IdsDistinct s ∧ SyncInv s

/-
  SchemaManager: AudioTable::create_table runs one sql batch, inside
  BEGIN/COMMIT, creating the audio table, the fts5_audio virtual table
  and the three triggers.  The table, the index and the insert and
  delete triggers are created with IF NOT EXISTS; the update trigger is
  created WITHOUT the guard.  A failing statement aborts the batch (the
  transaction never commits, so the schema is unchanged) and the Rust
  caller unwraps the error.
-/

inductive SchemaObj where
  | audioTbl
  | fts5Tbl
  | insertTrigger
  | deleteTrigger
  | updateTrigger
deriving DecidableEq

def SchemaObj.sqlName : SchemaObj → String
  | SchemaObj.audioTbl => ("audio")
  | SchemaObj.fts5Tbl => ("fts5_audio")
  | SchemaObj.insertTrigger => ("audio_insert")
  | SchemaObj.deleteTrigger => ("audio_delete")
  | SchemaObj.updateTrigger => ("audio_update")

/-- Which of the five schema objects exist in the database. -/
structure Schema where
  audioTbl : Bool
  fts5Tbl : Bool
  insertTrigger : Bool
  deleteTrigger : Bool
  updateTrigger : Bool
deriving DecidableEq

def Schema.hasObj (s : Schema) : SchemaObj → Bool
  | SchemaObj.audioTbl => s.audioTbl
  | SchemaObj.fts5Tbl => s.fts5Tbl
  | SchemaObj.insertTrigger => s.insertTrigger
  | SchemaObj.deleteTrigger => s.deleteTrigger
  | SchemaObj.updateTrigger => s.updateTrigger

def Schema.addObj (s : Schema) : SchemaObj → Schema
  | SchemaObj.audioTbl => ⟨true, s.fts5Tbl, s.insertTrigger, s.deleteTrigger, s.updateTrigger⟩
  | SchemaObj.fts5Tbl => ⟨s.audioTbl, true, s.insertTrigger, s.deleteTrigger, s.updateTrigger⟩
  | SchemaObj.insertTrigger => ⟨s.audioTbl, s.fts5Tbl, true, s.deleteTrigger, s.updateTrigger⟩
  | SchemaObj.deleteTrigger => ⟨s.audioTbl, s.fts5Tbl, s.insertTrigger, true, s.updateTrigger⟩
  | SchemaObj.updateTrigger => ⟨s.audioTbl, s.fts5Tbl, s.insertTrigger, s.deleteTrigger, true⟩

/-- One CREATE statement: with the IF NOT EXISTS guard an existing object is
kept silently, without the guard an existing object is an error. -/
def execStmt (s : Schema) (obj : SchemaObj) (ifNotExists : Bool) : Except String Schema :=
  if s.hasObj obj then
    if ifNotExists then Except.ok s
    else Except.error (obj.sqlName ++ (" already exists"))
  else Except.ok (s.addObj obj)

/-- The statements of the create_table batch, in source order, paired with
whether they carry IF NOT EXISTS.  The update trigger is the unguarded one. -/
def createTableBatch : List (SchemaObj × Bool) :=
  [(SchemaObj.audioTbl, true), (SchemaObj.fts5Tbl, true),
    (SchemaObj.insertTrigger, true), (SchemaObj.deleteTrigger, true),
    (SchemaObj.updateTrigger, false)]

/-- execute_batch inside BEGIN/COMMIT: statements run in order, the first
error aborts the batch and the whole transaction, leaving the schema as it
was; the Except carries the error to the caller (who unwraps it). -/
def execBatch : Schema → List (SchemaObj × Bool) → Except String Schema
  | s, [] => Except.ok s
  | s, st :: rest =>
    match execStmt s st.1 st.2 with
    | Except.ok s2 => execBatch s2 rest
    | Except.error e => Except.error e

/-- AudioTable::create_table of src/db.rs. -/
def create_table (s : Schema) : Except String Schema := execBatch s createTableBatch

def emptySchema : Schema := ⟨false, false, false, false, false⟩

def fullSchema : Schema := ⟨true, true, true, true, true⟩

/-
  RecordStore: insert, unique-key lookup, existence check.
-/

/-- The columns of the audio table, exactly as AudioTable::create_table
declares them (note the user_ prefix on the last three). -/
def audio_table_columns : List String :=
  ["id", "name", "tags", "audio_file", "created_at", "user_id", "user_name",
    "user_global_name"]

/-- The column list AudioTable::insert_audio_row names in its INSERT INTO
statement (note the author_ prefix on the last three). -/
def insert_sql_columns : List String :=
  ["name", "tags", "audio_file", "created_at", "author_id", "author_name",
    "author_global_name"]

/-- AudioTable::insert_audio_row of src/db.rs.  Sqlite first resolves the
named columns of the INSERT against the table (an unknown column is an error
at prepare time), then enforces the UNIQUE constraints on name and
audio_file; a successful insert appends the row under a fresh rowid.  The
Rust function maps the sqlite error to its message string. -/
def insert_audio_row (tbl : List AudioTableRow) (x : AudioTableRowInsert) :
    Except String (List AudioTableRow) :=
  match (insert_sql_columns.filter (fun c => !(audio_table_columns.contains c))).head? with
  | some c => Except.error (("table audio has no column named ") ++ c)
  | none =>
    if tbl.any (fun r => r.name == x.name) then
      Except.error ("UNIQUE constraint failed: audio.name")
    else if tbl.any (fun r => r.audio_file == x.audio_file) then
      Except.error ("UNIQUE constraint failed: audio.audio_file")
    else Except.ok (tbl ++ [rowOfInsert (freshId tbl) x])

/-- UniqueAudioTableCol of src/db.rs. -/
inductive UniqueAudioTableCol where
  | Id (i : Int)
  | Name (s : String)
  | AudioFile (s : String)

/-- The predicate the sql_condition of a unique column denotes on a row. -/
def UniqueAudioTableCol.matchesRow : UniqueAudioTableCol → AudioTableRow → Bool
  | UniqueAudioTableCol.Id i, r => r.id == i
  | UniqueAudioTableCol.Name n, r => r.name == n
  | UniqueAudioTableCol.AudioFile f, r => r.audio_file == f

/-- A row as fetched by a query, together with whether the TryFrom conversion
of the fetched row into AudioTableRow succeeds (the conversion reads the
author columns and parses created_at, so it can fail row by row). -/
structure RawRow where
  row : AudioTableRow
  convOk : Bool
deriving DecidableEq

/-- AudioTable::find_audio_row of src/db.rs: query_row takes the first row
matching the condition and runs TryFrom on it; every error, the no-rows case
and a failed conversion included, is logged and collapsed to none by ok(). -/
def find_audio_row (tbl : List RawRow) (queryFails : Bool)
    (col : UniqueAudioTableCol) : Option AudioTableRow :=
  if queryFails then none
  else
    match (tbl.filter (fun r => col.matchesRow r.row)).head? with
    | none => none
    | some r => if r.convOk then some r.row else none

/-- A stored sqlite value, with its storage class. -/
inductive SqlValue where
  | integer (i : Int)
  | text (s : String)
  | null
deriving DecidableEq

inductive DbErr where
  | queryReturnedNoRows
  | invalidColumnType
  | storageFailure
deriving DecidableEq

/-- The FromSql conversion of rusqlite for String: only a TEXT value converts;
an INTEGER value is an invalid-column-type error, rusqlite does not coerce. -/
def sqlValueAsString : SqlValue → Except DbErr String
  | SqlValue.text s => Except.ok s
  | _ => Except.error DbErr.invalidColumnType

/-- The optional() adapter of rusqlite: the no-rows error becomes ok none,
every other error stays an error. -/
def optionalResult : Except DbErr String → Except DbErr (Option String)
  | Except.ok v => Except.ok (some v)
  | Except.error DbErr.queryReturnedNoRows => Except.ok none
  | Except.error e => Except.error e

/-- AudioTable::has_audio_file of src/db.rs.  The query selects the id column
of the first row whose audio_file matches; the row mapper reads column 0 with
the Rust type String, although the id column stores an INTEGER.  The match on
optional() then maps a present value to true and both the absent case and the
error case to false. -/
def has_audio_file (tbl : List AudioTableRow) (queryFails : Bool)
    (audio_file : String) : Bool :=
  let value : Except DbErr String :=
    if queryFails then Except.error DbErr.storageFailure
    else
      match (tbl.filter (fun r => r.audio_file == audio_file)).head? with
      | none => Except.error DbErr.queryReturnedNoRows
      | some r => sqlValueAsString (SqlValue.integer r.id)
  match optionalResult value with
  | Except.ok (some _) => true
  | Except.ok none => false
  | Except.error _ => false

/-
  PaginationCursor: AudioTablePaginator of src/db.rs.
-/

inductive AudioTableOrderBy where
  | CreatedAt
  | Id
  | Name

def AudioTableOrderBy.col_name : AudioTableOrderBy → String
  | AudioTableOrderBy.CreatedAt => ("created_at")
  | AudioTableOrderBy.Id => ("id")
  | AudioTableOrderBy.Name => ("name")

/-- Byte order of sqlite text comparison: utf-8 byte order agrees with
code-point order, compared position by position. -/
def charsLe : List Char → List Char → Bool
  | [], _ => true
  | _ :: _, [] => false
  | c :: cs, d :: ds =>
    if c.toNat < d.toNat then true
    else if d.toNat < c.toNat then false
    else charsLe cs ds

def strLe (a b : String) : Bool := charsLe a.data b.data

/-- The ORDER BY comparison for the configured column. -/
def rowLe (ob : AudioTableOrderBy) (a b : AudioTableRow) : Bool :=
  match ob with
  | AudioTableOrderBy.CreatedAt => strLe a.created_at b.created_at
  | AudioTableOrderBy.Id => decide (a.id ≤ b.id)
  | AudioTableOrderBy.Name => strLe a.name b.name

/-- Insertion into a sorted list, the building block of the ORDER BY model. -/
def insertSorted {α : Type} (le : α → α → Bool) (x : α) : List α → List α
  | [] => [x]
  | y :: t => if le x y then x :: y :: t else y :: insertSorted le x t

/-- The ordered result set of SELECT ... ORDER BY, modelled by insertion
sort under the column comparison. -/
def sqlOrderBy {α : Type} (le : α → α → Bool) (l : List α) : List α :=
  l.foldr (insertSorted le) []

/-- AudioTablePaginator of src/db.rs: the configured order, the page limit and
the current offset (the connection is carried by the surrounding functions). -/
structure AudioTablePaginator where
  order_by : AudioTableOrderBy
  page_limit : Nat
  offset : Nat

/-- AudioTablePaginatorBuilder of src/db.rs. -/
structure AudioTablePaginatorBuilder where
  order_by : AudioTableOrderBy
  page_limit : Nat

/-- AudioTablePaginatorBuilder::new: order by Id, page limit 500. -/
def AudioTablePaginatorBuilder.new : AudioTablePaginatorBuilder :=
  ⟨AudioTableOrderBy.Id, 500⟩

/-- AudioTablePaginatorBuilder::build: the offset starts at 0. -/
def AudioTablePaginatorBuilder.build (b : AudioTablePaginatorBuilder) :
    AudioTablePaginator :=
  ⟨b.order_by, b.page_limit, 0⟩

/-- The row range the next_page SELECT asks for: ORDER BY the configured
column, LIMIT page_limit, OFFSET offset. -/
def queriedPage (p : AudioTablePaginator) (tbl : List RawRow) : List RawRow :=
  ((sqlOrderBy (fun a b => rowLe p.order_by a.row b.row) tbl).drop p.offset).take
    p.page_limit

/-- AudioTablePaginator::next_page of src/db.rs.  queryFails models a failure
of query_map (returned as an error); otherwise the queried range is fetched
and each row is converted with TryFrom, a failing row being logged and
dropped by filter_map.  The paginator comes back unchanged: the source never
adds page_limit to offset (nothing in src/db.rs writes to self.offset). -/
def next_page (p : AudioTablePaginator) (tbl : List RawRow)
    (queryFails : Option String) :
    Except String (List AudioTableRow) × AudioTablePaginator :=
  match queryFails with
  | some e => (Except.error (("Error in AudioTablePaginator - ") ++ e), p)
  | none =>
    (Except.ok ((queriedPage p tbl).filterMap
      (fun r => if r.convOk then some r.row else none)), p)

/-- The Iterator::next of AudioTablePaginator: an empty page and a failed
page both end the iteration (none); a non-empty page is yielded. -/
def paginatorNext (p : AudioTablePaginator) (tbl : List RawRow)
    (queryFails : Option String) :
    Option (Except String (List AudioTableRow)) × AudioTablePaginator :=
  match next_page p tbl queryFails with
  | (Except.ok rows, p2) =>
    (if rows.isEmpty then none else some (Except.ok rows), p2)
  | (Except.error _, p2) => (none, p2)

/-
  Concrete sample data used by the counterexamples and witnesses.
-/

def exInsert : AudioTableRowInsert :=
  ⟨("star-wars"), ("movie"), ("a.mp3"), ("2024-01-01 00:00:00Z"), none, none, none⟩

def exInsert2 : AudioTableRowInsert :=
  ⟨("beep"), ("noise"), ("b.mp3"), ("2024-01-02 00:00:00Z"), none, none, none⟩

def exRow1 : AudioTableRow := rowOfInsert 1 exInsert

def exRow2 : AudioTableRow := rowOfInsert 2 exInsert2

def exRaw1 : RawRow := ⟨exRow1, true⟩

def exRaw2 : RawRow := ⟨exRow2, true⟩

def exTbl : List RawRow := [exRaw1]

def exTbl2 : List RawRow := [exRaw1, exRaw2]

/-- A one-character string holding the apostrophe, used to write the spec
examples without a literal apostrophe in this file. -/
def apostrophe : String := String.singleton (Char.ofNat 39)

/-- No two adjacent whitespace characters: the shape of a list the whitespace
collapse leaves unchanged. -/
def noAdjWS : List Char → Prop
  | [] => True
  | [_] => True
  | c1 :: c2 :: rest => ¬(isWS c1 = true ∧ isWS c2 = true) ∧ noAdjWS (c2 :: rest)

/-- Every character belongs to the kept class [a-zA-Z0-9, ]. -/
def allKept (l : List Char) : Prop := ∀ c ∈ l, isKeptChar c = true

/-
  Lemmas on the text normalizer, leading to idempotence.
-/

theorem collapseWS_cons_shape (c : Char) (t : List Char) :
    ∃ d t2, collapseWS (c :: t) = d :: t2 ∧ isWS d = isWS c := by
  cases t with
  | nil => exact ⟨c, [], rfl, rfl⟩
  | cons c2 r =>
    by_cases h : (isWS c && isWS c2) = true
    · refine ⟨' ', (collapseWS (c2 :: r)).tail, ?_, ?_⟩
      · simp only [collapseWS, h, if_true]
      · have hc : isWS c = true := ((Bool.and_eq_true (isWS c) (isWS c2)).mp h).1
        rw [hc]
        decide
    · refine ⟨c, collapseWS (c2 :: r), ?_, rfl⟩
      simp only [collapseWS, h, if_false, Bool.false_eq_true]

theorem mem_collapseWS : ∀ (l : List Char), ∀ c ∈ collapseWS l, c = ' ' ∨ c ∈ l
  | [] => by simp [collapseWS]
  | [a] => by simp [collapseWS]
  | a :: b :: t => by
    intro c hc
    by_cases h : (isWS a && isWS b) = true
    · rw [show collapseWS (a :: b :: t) = ' ' :: (collapseWS (b :: t)).tail from by
        simp only [collapseWS, h, if_true]] at hc
      rcases List.mem_cons.mp hc with h1 | h1
      · exact Or.inl h1
      · rcases mem_collapseWS (b :: t) c (List.mem_of_mem_tail h1) with h3 | h3
        · exact Or.inl h3
        · exact Or.inr (List.mem_cons_of_mem a h3)
    · rw [show collapseWS (a :: b :: t) = a :: collapseWS (b :: t) from by
        simp only [collapseWS, h, if_false, Bool.false_eq_true]] at hc
      rcases List.mem_cons.mp hc with h1 | h1
      · exact Or.inr (h1 ▸ List.mem_cons_self a (b :: t))
      · rcases mem_collapseWS (b :: t) c h1 with h3 | h3
        · exact Or.inl h3
        · exact Or.inr (List.mem_cons_of_mem a h3)

theorem noAdjWS_congr_head (d e : Char) (t : List Char) (h : isWS d = isWS e) :
    noAdjWS (d :: t) → noAdjWS (e :: t) := by
  cases t with
  | nil => intro; trivial
  | cons b s =>
    intro hd
    refine ⟨fun hp => hd.1 ⟨?_, hp.2⟩, hd.2⟩
    rw [h]
    exact hp.1

theorem noAdjWS_collapseWS : ∀ (l : List Char), noAdjWS (collapseWS l)
  | [] => by simp [collapseWS, noAdjWS]
  | [a] => by simp [collapseWS, noAdjWS]
  | a :: b :: t => by
    obtain ⟨d, t2, heq, hws⟩ := collapseWS_cons_shape b t
    by_cases h : (isWS a && isWS b) = true
    · rw [show collapseWS (a :: b :: t) = ' ' :: (collapseWS (b :: t)).tail from by
        simp only [collapseWS, h, if_true]]
      have ih := noAdjWS_collapseWS (b :: t)
      rw [heq] at ih ⊢
      simp only [List.tail_cons]
      have hd : isWS d = true := by
        rw [hws]
        exact ((Bool.and_eq_true (isWS a) (isWS b)).mp h).2
      have : noAdjWS (' ' :: t2) := by
        refine noAdjWS_congr_head d ' ' t2 ?_ ih
        rw [hd]
        decide
      exact this
    · rw [show collapseWS (a :: b :: t) = a :: collapseWS (b :: t) from by
        simp only [collapseWS, h, if_false, Bool.false_eq_true]]
      have ih := noAdjWS_collapseWS (b :: t)
      rw [heq] at ih ⊢
      refine ⟨fun hp => ?_, ih⟩
      rw [Bool.and_eq_true] at h
      exact h ⟨hp.1, hws ▸ hp.2⟩

theorem collapseWS_of_noAdjWS : ∀ (l : List Char), noAdjWS l → collapseWS l = l
  | [] => fun _ => rfl
  | [_] => fun _ => rfl
  | a :: b :: t => fun h => by
    have hcond : (isWS a && isWS b) = false := by
      rcases Bool.eq_false_or_eq_true (isWS a && isWS b) with ht | hf
      · exact absurd (Bool.and_eq_true (isWS a) (isWS b) |>.mp ht) h.1
      · exact hf
    rw [show collapseWS (a :: b :: t) = a :: collapseWS (b :: t) from by
      simp only [collapseWS, hcond, if_false, Bool.false_eq_true]]
    rw [collapseWS_of_noAdjWS (b :: t) h.2]

theorem noAdjWS_tail (c : Char) (t : List Char) (h : noAdjWS (c :: t)) : noAdjWS t := by
  cases t with
  | nil => trivial
  | cons b s => exact h.2

theorem noAdjWS_dropWhile : ∀ (l : List Char), noAdjWS l → noAdjWS (l.dropWhile isWS)
  | [] => fun _ => trivial
  | c :: t => fun h => by
    rw [List.dropWhile_cons]
    by_cases hc : isWS c = true
    · rw [if_pos hc]
      exact noAdjWS_dropWhile t (noAdjWS_tail c t h)
    · rw [if_neg hc]
      exact h

theorem trimTrailingWS_prefix : ∀ (l : List Char), ∃ r, l = trimTrailingWS l ++ r
  | [] => ⟨[], rfl⟩
  | c :: t => by
    obtain ⟨r, hr⟩ := trimTrailingWS_prefix t
    by_cases h : ((trimTrailingWS t).isEmpty && isWS c) = true
    · refine ⟨c :: t, ?_⟩
      rw [show trimTrailingWS (c :: t) = [] from by simp only [trimTrailingWS, h, if_true]]
      rfl
    · refine ⟨r, ?_⟩
      rw [show trimTrailingWS (c :: t) = c :: trimTrailingWS t from by
        simp only [trimTrailingWS, h, if_false, Bool.false_eq_true]]
      rw [List.cons_append]
      rw [← hr]

theorem noAdjWS_append_left : ∀ (l r : List Char), noAdjWS (l ++ r) → noAdjWS l
  | [], _ => fun _ => trivial
  | [_], _ => fun _ => trivial
  | a :: b :: t, r => fun h => by
    rw [List.cons_append, List.cons_append] at h
    exact ⟨h.1, noAdjWS_append_left (b :: t) r h.2⟩

theorem mem_trimTrailingWS (c : Char) (l : List Char) (h : c ∈ trimTrailingWS l) :
    c ∈ l := by
  obtain ⟨r, hr⟩ := trimTrailingWS_prefix l
  rw [hr]
  exact List.mem_append_left r h

theorem noAdjWS_trimTrailingWS (l : List Char) (h : noAdjWS l) :
    noAdjWS (trimTrailingWS l) := by
  obtain ⟨r, hr⟩ := trimTrailingWS_prefix l
  rw [hr] at h
  exact noAdjWS_append_left (trimTrailingWS l) r h

theorem getLast_trimTrailingWS_not_ws :
    ∀ (l : List Char) (c : Char), (trimTrailingWS l).getLast? = some c → isWS c = false
  | [], c => by intro h; simp [trimTrailingWS] at h
  | a :: t, c => by
    intro h
    by_cases hcond : ((trimTrailingWS t).isEmpty && isWS a) = true
    · rw [show trimTrailingWS (a :: t) = [] from by
        simp only [trimTrailingWS, hcond, if_true]] at h
      simp at h
    · rw [show trimTrailingWS (a :: t) = a :: trimTrailingWS t from by
        simp only [trimTrailingWS, hcond, if_false, Bool.false_eq_true]] at h
      cases hE : trimTrailingWS t with
      | nil =>
        rw [hE] at h
        simp only [List.getLast?_singleton, Option.some.injEq] at h
        rw [Bool.and_eq_true] at hcond
        rcases Bool.eq_false_or_eq_true (isWS a) with ht | hf
        · exact absurd ⟨by rw [hE]; rfl, ht⟩ hcond
        · exact h ▸ hf
      | cons d s =>
        rw [hE] at h
        rw [List.getLast?_cons_cons] at h
        exact getLast_trimTrailingWS_not_ws t c (hE ▸ h)

theorem trimTrailingWS_eq_self :
    ∀ (l : List Char), (∀ c, l.getLast? = some c → isWS c = false) →
      trimTrailingWS l = l
  | [] => fun _ => rfl
  | a :: t => fun h => by
    cases t with
    | nil =>
      have ha : isWS a = false := h a rfl
      show (if ((trimTrailingWS []).isEmpty && isWS a) = true then [] else a :: trimTrailingWS []) = [a]
      rw [ha]
      simp [trimTrailingWS]
    | cons b s =>
      have ht : trimTrailingWS (b :: s) = b :: s := by
        refine trimTrailingWS_eq_self (b :: s) ?_
        intro c hc
        refine h c ?_
        rw [List.getLast?_cons_cons]
        exact hc
      show (if ((trimTrailingWS (b :: s)).isEmpty && isWS a) = true then []
        else a :: trimTrailingWS (b :: s)) = a :: b :: s
      rw [ht]
      simp [List.isEmpty]

theorem head_trimTrailingWS (l : List Char) (c : Char)
    (h : (trimTrailingWS l).head? = some c) : l.head? = some c := by
  cases l with
  | nil => simp [trimTrailingWS] at h
  | cons a t =>
    by_cases hcond : ((trimTrailingWS t).isEmpty && isWS a) = true
    · rw [show trimTrailingWS (a :: t) = [] from by
        simp only [trimTrailingWS, hcond, if_true]] at h
      simp at h
    · rw [show trimTrailingWS (a :: t) = a :: trimTrailingWS t from by
        simp only [trimTrailingWS, hcond, if_false, Bool.false_eq_true]] at h
      simpa using h

theorem dropWhile_ws_eq_self (l : List Char)
    (h : ∀ c, l.head? = some c → isWS c = false) : l.dropWhile isWS = l := by
  cases l with
  | nil => rfl
  | cons a t =>
    rw [List.dropWhile_cons]
    rw [h a rfl]
    simp

theorem kept_not_apostrophe (c : Char) (h : isKeptChar c = true) :
    isApostrophe c = false := by
  simp only [isKeptChar, Bool.or_eq_true, Bool.and_eq_true, decide_eq_true_eq,
    beq_iff_eq] at h
  simp only [isApostrophe, decide_eq_false_iff_not]
  omega

theorem allKept_map_step (l : List Char) :
    allKept (l.map (fun c => if isKeptChar c then c else ' ')) := by
  intro c hc
  rcases List.mem_map.mp hc with ⟨a, _, ha⟩
  by_cases hk : isKeptChar a = true
  · rw [← ha, if_pos hk]; exact hk
  · rw [← ha, if_neg hk]; decide

theorem allKept_collapseWS (l : List Char) (h : allKept l) :
    allKept (collapseWS l) := by
  intro c hc
  rcases mem_collapseWS l c hc with h1 | h1
  · rw [h1]; decide
  · exact h c h1

theorem allKept_trimWS (l : List Char) (h : allKept l) : allKept (trimWS l) := by
  intro c hc
  refine h c ?_
  exact (List.dropWhile_sublist isWS).subset (mem_trimTrailingWS c (l.dropWhile isWS) hc)

theorem allKept_fts_clean (l : List Char) : allKept (fts_clean_chars l) := by
  unfold fts_clean_chars
  exact allKept_trimWS _ (allKept_collapseWS _ (allKept_map_step _))

theorem noAdjWS_fts_clean (l : List Char) : noAdjWS (fts_clean_chars l) := by
  unfold fts_clean_chars trimWS
  exact noAdjWS_trimTrailingWS _ (noAdjWS_dropWhile _ (noAdjWS_collapseWS _))

theorem head_fts_clean_not_ws (l : List Char) (c : Char)
    (h : (fts_clean_chars l).head? = some c) : isWS c = false := by
  unfold fts_clean_chars trimWS at h
  have h2 := head_trimTrailingWS _ c h
  have h3 := List.head?_dropWhile_not isWS
    (collapseWS ((l.filter (fun c => !(isApostrophe c))).map
      (fun c => if isKeptChar c then c else ' ')))
  rw [h2] at h3
  simpa using h3

theorem getLast_fts_clean_not_ws (l : List Char) (c : Char)
    (h : (fts_clean_chars l).getLast? = some c) : isWS c = false := by
  unfold fts_clean_chars trimWS at h
  exact getLast_trimTrailingWS_not_ws _ c h

theorem filter_apos_eq_self (l : List Char) (h : allKept l) :
    l.filter (fun c => !(isApostrophe c)) = l := by
  refine List.filter_eq_self.mpr ?_
  intro c hc
  rw [kept_not_apostrophe c (h c hc)]
  rfl

theorem map_step_eq_self (l : List Char) (h : allKept l) :
    l.map (fun c => if isKeptChar c then c else ' ') = l := by
  induction l with
  | nil => rfl
  | cons a t ih =>
    rw [List.map_cons]
    rw [if_pos (h a (List.mem_cons_self a t))]
    rw [ih (fun c hc => h c (List.mem_cons_of_mem a hc))]

theorem filter_filter_comb {α : Type} (l : List α) (p q : α → Bool) :
    (l.filter p).filter q = l.filter (fun a => p a && q a) := by
  induction l with
  | nil => rfl
  | cons a t ih =>
    by_cases hp : p a = true
    · by_cases hq : q a = true
      · simp [List.filter_cons, hp, hq, ih]
      · simp [List.filter_cons, hp, hq, ih]
    · simp [List.filter_cons, hp, ih]

theorem fts_clean_chars_idem (l : List Char) :
    fts_clean_chars (fts_clean_chars l) = fts_clean_chars l := by
  have hk := allKept_fts_clean l
  conv =>
    lhs
    rw [fts_clean_chars]
  rw [filter_apos_eq_self _ hk]
  rw [map_step_eq_self _ hk]
  rw [collapseWS_of_noAdjWS _ (noAdjWS_fts_clean l)]
  rw [trimWS]
  rw [dropWhile_ws_eq_self _ (head_fts_clean_not_ws l)]
  rw [trimTrailingWS_eq_self _ (getLast_fts_clean_not_ws l)]

/-
  Lemmas on the trigger-maintained index invariant.
-/

theorem mem_id_le_maxId : ∀ (tbl : List AudioTableRow), ∀ r ∈ tbl, r.id ≤ maxId tbl
  | [] => by simp
  | a :: t => by
    intro r hr
    rcases List.mem_cons.mp hr with h | h
    · exact h ▸ le_max_left a.id (maxId t)
    · exact le_trans (mem_id_le_maxId t r h) (le_max_right a.id (maxId t))

theorem id_ne_freshId (tbl : List AudioTableRow) (r : AudioTableRow) (h : r ∈ tbl) :
    r.id ≠ freshId tbl := by
  have h2 := mem_id_le_maxId tbl r h
  unfold freshId
  omega

theorem eq_of_mem_id (tbl : List AudioTableRow)
    (hp : tbl.Pairwise (fun a b => a.id ≠ b.id)) (a b : AudioTableRow)
    (ha : a ∈ tbl) (hb : b ∈ tbl) (h : a.id = b.id) : a = b := by
  by_cases heq : a = b
  · exact heq
  · have hsym : Symmetric (fun (x y : AudioTableRow) => x.id ≠ y.id) := by
      intro x y hxy hyx
      exact hxy hyx.symm
    exact absurd h (List.Pairwise.forall hsym hp ha hb heq)

theorem filter_id_eq_single (tbl : List AudioTableRow)
    (hp : tbl.Pairwise (fun a b => a.id ≠ b.id)) (r0 : AudioTableRow) (i : Int)
    (hr0 : r0 ∈ tbl) (hid : r0.id = i) :
    tbl.filter (fun r => r.id == i) = [r0] := by
  induction tbl with
  | nil => simp at hr0
  | cons a t ih =>
    rw [List.pairwise_cons] at hp
    rcases List.mem_cons.mp hr0 with h | h
    · subst h
      rw [List.filter_cons]
      rw [show (r0.id == i) = true from beq_iff_eq.mpr hid]
      rw [if_pos rfl]
      have hnil : t.filter (fun r => r.id == i) = [] := by
        refine List.filter_eq_nil_iff.mpr ?_
        intro b hb
        have hne := hp.1 b hb
        simp only [beq_iff_eq]
        omega
      rw [hnil]
    · have hane : (a.id == i) = false := by
        have hne := hp.1 r0 h
        rw [beq_eq_false_iff_ne]
        omega
      rw [List.filter_cons, hane]
      rw [if_neg (by simp)]
      exact ih hp.2 h

theorem updated_map_id (i : Int) (x : AudioTableRowInsert) (r : AudioTableRow) :
    (if r.id == i then updatedRow r x else r).id = r.id := by
  by_cases h : (r.id == i) = true
  · rw [if_pos h]; rfl
  · rw [if_neg (by simp at h ⊢; exact h)]

theorem applyOp_inv (s : DbState) (op : DbOp) (h : DbInv s) : DbInv (applyOp s op) := by
  obtain ⟨hids, hsync1, hsync2⟩ := h
  cases op with
  | insert x =>
    cases hany : s.audio.any (fun r => r.name == x.name || r.audio_file == x.audio_file) with
    | true =>
      simp only [applyOp, hany, if_true]
      exact ⟨hids, hsync1, hsync2⟩
    | false =>
      simp only [applyOp, hany, Bool.false_eq_true, if_false]
      refine ⟨?_, ?_, ?_⟩
      · show (s.audio ++ [rowOfInsert (freshId s.audio) x]).Pairwise (fun a b => a.id ≠ b.id)
        rw [List.pairwise_append]
        refine ⟨hids, List.pairwise_singleton _ _, ?_⟩
        intro a ha b hb
        rw [List.mem_singleton.mp hb]
        exact id_ne_freshId s.audio a ha
      · intro w hw
        show (s.fts ++ [entryOf (rowOfInsert (freshId s.audio) x)]).filter
          (fun e => e.rowid == w.id) = [entryOf w]
        rw [List.filter_append]
        rcases List.mem_append.mp hw with hmem | hmem
        · have hne : (entryOf (rowOfInsert (freshId s.audio) x)).rowid ≠ w.id := by
            show freshId s.audio ≠ w.id
            exact fun hcontra => id_ne_freshId s.audio w hmem hcontra.symm
          rw [hsync1 w hmem]
          rw [List.filter_cons]
          rw [show ((entryOf (rowOfInsert (freshId s.audio) x)).rowid == w.id) = false from
            beq_eq_false_iff_ne.mpr hne]
          rw [if_neg (by simp)]
          simp
        · rw [List.mem_singleton.mp hmem]
          have hfst : s.fts.filter
              (fun e => e.rowid == (rowOfInsert (freshId s.audio) x).id) = [] := by
            refine List.filter_eq_nil_iff.mpr ?_
            intro e he
            obtain ⟨v, hv, hev⟩ := hsync2 e he
            show ¬(e.rowid == freshId s.audio) = true
            simp only [beq_iff_eq]
            rw [hev]
            exact id_ne_freshId s.audio v hv
          rw [hfst]
          rw [List.filter_cons]
          rw [show ((entryOf (rowOfInsert (freshId s.audio) x)).rowid ==
            (rowOfInsert (freshId s.audio) x).id) = true from beq_iff_eq.mpr rfl]
          rw [if_pos rfl]
          simp
      · intro e he
        rcases List.mem_append.mp he with hmem | hmem
        · obtain ⟨v, hv, hev⟩ := hsync2 e hmem
          exact ⟨v, List.mem_append_left _ hv, hev⟩
        · refine ⟨rowOfInsert (freshId s.audio) x, ?_, ?_⟩
          · exact List.mem_append_right _ (List.mem_singleton_self _)
          · rw [List.mem_singleton.mp hmem]
            rfl
  | deleteByAudioFile p =>
    simp only [applyOp]
    refine ⟨?_, ?_, ?_⟩
    · exact hids.sublist (List.filter_sublist _)
    · intro w hw
      obtain ⟨hwmem, hwp⟩ := List.mem_filter.mp hw
      have hwpf : (w.audio_file == p) = false := by
        rcases Bool.eq_false_or_eq_true (w.audio_file == p) with ht | hf
        · rw [ht] at hwp; simp at hwp
        · exact hf
      rw [filter_filter_comb]
      have hcong : s.fts.filter
          (fun e => (!((s.audio.filter (fun r => r.audio_file == p)).any
            (fun v => v.id == e.rowid))) && (e.rowid == w.id)) =
          s.fts.filter (fun e => e.rowid == w.id) := by
        refine List.filter_congr ?_
        intro e he
        cases hq : (e.rowid == w.id) with
        | false => simp
        | true =>
          have hkeep : ((s.audio.filter (fun r => r.audio_file == p)).any
              (fun v => v.id == e.rowid)) = false := by
            rcases Bool.eq_false_or_eq_true ((s.audio.filter
              (fun r => r.audio_file == p)).any (fun v => v.id == e.rowid)) with ht | hf
            · exfalso
              obtain ⟨v, hvmem, hvid⟩ := List.any_eq_true.mp ht
              obtain ⟨hvaudio, hvp⟩ := List.mem_filter.mp hvmem
              have hveq : v = w := by
                refine eq_of_mem_id s.audio hids v w hvaudio hwmem ?_
                rw [beq_iff_eq.mp hvid]
                exact beq_iff_eq.mp hq
              rw [hveq] at hvp
              rw [hvp] at hwpf
              exact Bool.true_eq_false.mp hwpf
            · exact hf
          simp [hkeep]
      rw [hcong]
      exact hsync1 w hwmem
    · intro e he
      obtain ⟨hemem, hekeep⟩ := List.mem_filter.mp he
      obtain ⟨v, hv, hev⟩ := hsync2 e hemem
      have hvp : (v.audio_file == p) = false := by
        rcases Bool.eq_false_or_eq_true (v.audio_file == p) with ht | hf
        · exfalso
          have hany : ((s.audio.filter (fun r => r.audio_file == p)).any
              (fun vv => vv.id == e.rowid)) = true := by
            refine List.any_eq_true.mpr ?_
            refine ⟨v, List.mem_filter.mpr ⟨hv, ht⟩, ?_⟩
            simp [beq_iff_eq, hev]
          rw [hany] at hekeep
          simp at hekeep
        · exact hf
      refine ⟨v, ?_, hev⟩
      refine List.mem_filter.mpr ⟨hv, ?_⟩
      rw [hvp]
      rfl
  | update i x =>
    cases hex : s.audio.any (fun r => r.id == i) with
    | false =>
      simp only [applyOp, hex, Bool.false_eq_true, if_false]
      exact ⟨hids, hsync1, hsync2⟩
    | true =>
      cases hconf : s.audio.any
          (fun r => !(r.id == i) && (r.name == x.name || r.audio_file == x.audio_file)) with
      | true =>
        simp only [applyOp, hex, hconf, if_true]
        exact ⟨hids, hsync1, hsync2⟩
      | false =>
        obtain ⟨r0, hr0, hr0i⟩ := List.any_eq_true.mp hex
        have hr0id : r0.id = i := beq_iff_eq.mp hr0i
        have hfilter : s.audio.filter (fun r => r.id == i) = [r0] :=
          filter_id_eq_single s.audio hids r0 i hr0 hr0id
        simp only [applyOp, hex, hconf, Bool.false_eq_true, if_false, if_true]
        rw [hfilter]
        simp only [List.map_cons, List.map_nil]
        refine ⟨?_, ?_, ?_⟩
        · show (s.audio.map (fun r => if r.id == i then updatedRow r x else r)).Pairwise
            (fun a b => a.id ≠ b.id)
          rw [List.pairwise_map]
          refine hids.imp ?_
          intro a b hab
          rw [updated_map_id, updated_map_id]
          exact hab
        · intro w hw
          obtain ⟨v, hv, hfv⟩ := List.mem_map.mp hw
          rw [List.filter_append]
          cases hvi : (v.id == i) with
          | true =>
            have hveq : v = r0 := by
              refine eq_of_mem_id s.audio hids v r0 hv hr0 ?_
              rw [beq_iff_eq.mp hvi, hr0id]
            have hw2 : w = updatedRow r0 x := by
              rw [← hfv]
              rw [if_pos hvi]
              rw [hveq]
            have hwid : w.id = i := by
              rw [hw2]
              show r0.id = i
              exact hr0id
            have hfst : (s.fts.filter (fun e => !(e.rowid == i))).filter
                (fun e => e.rowid == w.id) = [] := by
              rw [filter_filter_comb]
              refine List.filter_eq_nil_iff.mpr ?_
              intro e he
              cases hb : (e.rowid == i) with
              | true => simp [hb]
              | false =>
                have : (e.rowid == w.id) = false := by
                  rw [hwid]
                  exact hb
                simp [this]
            have hpos : ((entryOf (updatedRow r0 x)).rowid == w.id) = true := by
              refine beq_iff_eq.mpr ?_
              show r0.id = w.id
              rw [hwid]
              exact hr0id
            rw [hfst]
            rw [List.filter_cons]
            rw [hpos]
            rw [if_pos rfl]
            rw [hw2]
            simp
          | false =>
            have hw2 : w = v := by
              rw [← hfv, if_neg (by simp at hvi ⊢; exact hvi)]
            have hwine : w.id ≠ i := by
              rw [hw2]
              exact beq_eq_false_iff_ne.mp hvi
            have hfst : (s.fts.filter (fun e => !(e.rowid == i))).filter
                (fun e => e.rowid == w.id) = [entryOf w] := by
              rw [filter_filter_comb]
              have hcong : s.fts.filter (fun e => (!(e.rowid == i)) && (e.rowid == w.id)) =
                  s.fts.filter (fun e => e.rowid == w.id) := by
                refine List.filter_congr ?_
                intro e he
                cases hq : (e.rowid == w.id) with
                | false => simp
                | true =>
                  have hne : (e.rowid == i) = false := by
                    rw [beq_eq_false_iff_ne]
                    rw [beq_iff_eq.mp hq]
                    exact hwine
                  simp [hne]
              rw [hcong]
              rw [hw2]
              exact hsync1 v hv
            have hnegc : ((entryOf (updatedRow r0 x)).rowid == w.id) = false := by
              refine beq_eq_false_iff_ne.mpr ?_
              show r0.id ≠ w.id
              rw [hr0id]
              exact fun hc => hwine hc.symm
            rw [hfst]
            rw [List.filter_cons]
            rw [hnegc]
            rw [if_neg (by simp)]
            simp
        · intro e he
          rcases List.mem_append.mp he with hmem | hmem
          · obtain ⟨hefts, _⟩ := List.mem_filter.mp hmem
            obtain ⟨v, hv, hev⟩ := hsync2 e hefts
            refine ⟨(if v.id == i then updatedRow v x else v), List.mem_map_of_mem _ hv, ?_⟩
            rw [updated_map_id]
            exact hev
          · rw [List.mem_singleton.mp hmem]
            refine ⟨(if r0.id == i then updatedRow r0 x else r0), List.mem_map_of_mem _ hr0, ?_⟩
            rw [updated_map_id]
            show r0.id = r0.id
            rfl

theorem foldl_applyOp_inv : ∀ (ops : List DbOp) (s : DbState),
    DbInv s → DbInv (ops.foldl applyOp s)
  | [], _ => fun h => h
  | op :: rest, s => fun h =>
    foldl_applyOp_inv rest (applyOp s op) (applyOp_inv s op h)

theorem initialState_inv : DbInv initialState := by
  refine ⟨List.Pairwise.nil, ?_, ?_⟩
  · intro r hr
    simp [initialState] at hr
  · intro e he
    simp [initialState] at he

theorem filterMap_conv_eq : ∀ (l : List RawRow),
    l.filterMap (fun r => if r.convOk then some r.row else none) =
      (l.filter (fun r => r.convOk)).map (fun r => r.row)
  | [] => rfl
  | a :: t => by
    by_cases h : a.convOk = true
    · simp [List.filterMap_cons, List.filter_cons, h, filterMap_conv_eq t]
    · simp [List.filterMap_cons, List.filter_cons, h, filterMap_conv_eq t]

/-
  Theorems settling the claims.
-/

/-- C1 (amended): after any sequence of insert, delete and update operations
on the primary table, starting from the fresh schema, every live AudioRecord
has exactly one search-index entry with the same id, whose name and
audio_file fields are verbatim copies of the record fields (the triggers copy
new.name and new.audio_file without normalizing them), and for every deleted
record there is no entry. -/
theorem audio_fts_sync_after_ops (ops : List DbOp) :
    (∀ r ∈ (runOps ops).audio,
      (runOps ops).fts.filter (fun e => e.rowid == r.id) = [entryOf r]) ∧
    (∀ e ∈ (runOps ops).fts, ∃ r ∈ (runOps ops).audio, e.rowid = r.id) :=
  (foldl_applyOp_inv ops initialState initialState_inv).2

/-- C1 counterexample: the claim as frozen, which demands the
TextNormalizer-normalized forms in the index entry, already fails after a
single insert: the record named star-wars gets an index entry holding
star-wars verbatim, not the normalized form star wars. -/
theorem audio_fts_sync_not_normalized :
    ¬ NormalizedSyncInv (runOps [DbOp.insert exInsert]) := by
  unfold NormalizedSyncInv
  decide

/-- C2 (code bug): next_page never advances the cursor offset: for the
freshly built paginator (offset 0, page limit 500) over a one-row table, the
offset after the call is still 0, not the old offset plus the page size as
the claim states. -/
theorem next_page_offset_never_advances :
    (next_page (AudioTablePaginatorBuilder.new.build) exTbl none).snd.offset = 0 ∧
    ¬((next_page (AudioTablePaginatorBuilder.new.build) exTbl none).snd.offset =
      (AudioTablePaginatorBuilder.new.build).offset +
        (AudioTablePaginatorBuilder.new.build).page_limit) := by
  decide

/-- C3 (code bug): for a table of N = 1 records and page size P = 500 the
iterator should stop after one non-empty page, since one is the number of
pages N over P rounded up; but because the offset never advances, the second
call to next yields the identical non-empty page again instead of
terminating, so iteration does not yield exactly that many pages. -/
theorem paginator_repeats_first_page :
    (paginatorNext (AudioTablePaginatorBuilder.new.build) exTbl none).fst =
      some (Except.ok [exRow1]) ∧
    (paginatorNext ((paginatorNext (AudioTablePaginatorBuilder.new.build) exTbl
      none).snd) exTbl none).fst = some (Except.ok [exRow1]) ∧
    (1 + 500 - 1) / 500 = 1 :=
  ⟨rfl, rfl, rfl⟩

/-- C4 (code bug): has_audio_file returns false even when a record with the
requested path is present and the storage query does not fail: the row mapper
reads the INTEGER id column at the Rust type String, which rusqlite rejects,
so the found-row case collapses into the error case.  The claimed equivalence
between the result and record existence therefore fails. -/
theorem has_audio_file_false_despite_presence :
    has_audio_file [exRow1] false ("a.mp3") = false ∧
    [exRow1].any (fun r => r.audio_file == ("a.mp3")) = true :=
  ⟨rfl, rfl⟩

/-- C5 counterexample: create_table is not idempotent: the first run on the
empty schema succeeds and installs all five objects, but the second run fails
because the update trigger is created without the IF NOT EXISTS guard. -/
theorem create_table_second_run_fails :
    create_table emptySchema = Except.ok fullSchema ∧
    create_table fullSchema = Except.error (("audio_update") ++ (" already exists")) :=
  ⟨rfl, rfl⟩

/-- C5 (amended): create_table is idempotent only for the guarded objects: on
any schema lacking the update trigger it succeeds and installs the table, the
index and all three triggers, while on any schema where the update trigger
already exists the batch fails, because the table, the index and the insert
and delete triggers carry the IF NOT EXISTS guard but the update trigger does
not. -/
theorem create_table_idempotent_except_update_trigger (s : Schema)
    (h : s.updateTrigger = false) :
    create_table s = Except.ok fullSchema ∧
    ∃ msg, create_table fullSchema = Except.error msg := by
  obtain ⟨a, b, c, d, e⟩ := s
  have he : e = false := h
  subst he
  refine ⟨?_, ⟨("audio_update") ++ (" already exists"), rfl⟩⟩
  cases a <;> cases b <;> cases c <;> cases d <;> rfl

/-- C5 witness: the amended statement applied to the empty schema. -/
theorem create_table_idempotent_witness :
    emptySchema.updateTrigger = false ∧
    (create_table emptySchema = Except.ok fullSchema ∧
      ∃ msg, create_table fullSchema = Except.error msg) :=
  ⟨rfl, create_table_idempotent_except_update_trigger emptySchema rfl⟩

/-- C6 (code bug): every insert through insert_audio_row fails before any
UNIQUE constraint is reached, because the INSERT statement names the columns
author_id, author_name and author_global_name while create_table declared
them user_id, user_name and user_global_name; sqlite rejects the statement
with a no-such-column error, so no insert succeeds and a duplicate name or
path is never reported as a UNIQUE violation. -/
theorem insert_audio_row_always_no_such_column :
    insert_audio_row [] exInsert =
      Except.error (("table audio has no column named ") ++ ("author_id")) ∧
    (∀ (tbl : List AudioTableRow) (x : AudioTableRowInsert),
      insert_audio_row tbl x =
        Except.error (("table audio has no column named ") ++ ("author_id"))) :=
  ⟨rfl, fun _ _ => rfl⟩

/-- C7: the text normalizer is idempotent: normalizing a normalized string
changes nothing. -/
theorem fts_clean_text_idempotent (s : String) :
    fts_clean_text (fts_clean_text s) = fts_clean_text s :=
  congrArg String.mk (fts_clean_chars_idem s.data)

/-- C8: the four-step normalization algorithm maps the three specification
examples to their expected outputs: the apostrophe is removed, punctuation
becomes spaces, whitespace runs collapse and the ends are trimmed. -/
theorem fts_clean_text_examples :
    fts_clean_text (("I think it") ++ apostrophe ++ ("s borked!?!?!?!?")) =
      ("I think its borked") ∧
    fts_clean_text ("I love star-wars!  ") = ("I love star wars") ∧
    fts_clean_text ("This\nis\na\nsingle\nline\n") = ("This is a single line") :=
  ⟨rfl, rfl, rfl⟩

/-- C9: find_audio_row resolves a unique-column predicate to at most one row
(under the PRIMARY KEY and UNIQUE constraints of the table), and reports both
the absence of a matching row and a failure of the underlying query
identically as none, never as a thrown error; a returned row is the matching
row. -/
theorem find_audio_row_not_found_semantics (tbl : List RawRow)
    (col : UniqueAudioTableCol)
    (hid : tbl.Pairwise (fun a b => a.row.id ≠ b.row.id))
    (hname : tbl.Pairwise (fun a b => a.row.name ≠ b.row.name))
    (hfile : tbl.Pairwise (fun a b => a.row.audio_file ≠ b.row.audio_file)) :
    find_audio_row tbl true col = none ∧
    ((∀ r ∈ tbl, col.matchesRow r.row = false) →
      find_audio_row tbl false col = none) ∧
    (∀ a ∈ tbl, ∀ b ∈ tbl, col.matchesRow a.row = true →
      col.matchesRow b.row = true → a = b) ∧
    (∀ w, find_audio_row tbl false col = some w →
      ∃ rr ∈ tbl, rr.row = w ∧ col.matchesRow w = true) := by
  refine ⟨rfl, ?_, ?_, ?_⟩
  · intro hnone
    have hnil : tbl.filter (fun r => col.matchesRow r.row) = [] := by
      refine List.filter_eq_nil_iff.mpr ?_
      intro r hr
      rw [hnone r hr]
      simp
    unfold find_audio_row
    rw [if_neg (by simp)]
    rw [hnil]
    rfl
  · intro a ha b hb hma hmb
    by_cases heq : a = b
    · exact heq
    · exfalso
      cases col with
      | Id i =>
        have h1 : a.row.id = i := beq_iff_eq.mp hma
        have h2 : b.row.id = i := beq_iff_eq.mp hmb
        have hsym : Symmetric (fun (x y : RawRow) => x.row.id ≠ y.row.id) := by
          intro x y hxy hyx
          exact hxy hyx.symm
        exact List.Pairwise.forall hsym hid ha hb heq (h1.trans h2.symm)
      | Name n =>
        have h1 : a.row.name = n := beq_iff_eq.mp hma
        have h2 : b.row.name = n := beq_iff_eq.mp hmb
        have hsym : Symmetric (fun (x y : RawRow) => x.row.name ≠ y.row.name) := by
          intro x y hxy hyx
          exact hxy hyx.symm
        exact List.Pairwise.forall hsym hname ha hb heq (h1.trans h2.symm)
      | AudioFile f =>
        have h1 : a.row.audio_file = f := beq_iff_eq.mp hma
        have h2 : b.row.audio_file = f := beq_iff_eq.mp hmb
        have hsym : Symmetric (fun (x y : RawRow) => x.row.audio_file ≠ y.row.audio_file) := by
          intro x y hxy hyx
          exact hxy hyx.symm
        exact List.Pairwise.forall hsym hfile ha hb heq (h1.trans h2.symm)
  · intro w hw
    have hw2 : (match (tbl.filter (fun r => col.matchesRow r.row)).head? with
        | none => (none : Option AudioTableRow)
        | some r => if r.convOk then some r.row else none) = some w := hw
    split at hw2
    · exact absurd hw2 (by simp)
    · rename_i rr hfil
      by_cases hconv : rr.convOk = true
      · rw [if_pos hconv] at hw2
        have hweq : rr.row = w := Option.some.inj hw2
        have hmem : rr ∈ tbl.filter (fun r => col.matchesRow r.row) := by
          cases hE : tbl.filter (fun r => col.matchesRow r.row) with
          | nil =>
            rw [hE] at hfil
            exact absurd hfil (by simp)
          | cons d s =>
            rw [hE] at hfil
            have hdr : d = rr := by
              have h3 := hfil
              simp at h3
              exact h3
            exact hdr ▸ List.mem_cons_self d s
        obtain ⟨hrtbl, hrmatch⟩ := List.mem_filter.mp hmem
        exact ⟨rr, hrtbl, hweq, hweq ▸ hrmatch⟩
      · rw [if_neg hconv] at hw2
        exact absurd hw2 (by simp)

/-- C9 witness: the lookup semantics applied to a concrete two-row table and
the Name key. -/
theorem find_audio_row_witness :
    exTbl2.Pairwise (fun a b => a.row.id ≠ b.row.id) ∧
    (find_audio_row exTbl2 true (UniqueAudioTableCol.Name ("star-wars")) = none ∧
      ((∀ r ∈ exTbl2,
          (UniqueAudioTableCol.Name ("star-wars")).matchesRow r.row = false) →
        find_audio_row exTbl2 false (UniqueAudioTableCol.Name ("star-wars")) = none) ∧
      (∀ a ∈ exTbl2, ∀ b ∈ exTbl2,
        (UniqueAudioTableCol.Name ("star-wars")).matchesRow a.row = true →
        (UniqueAudioTableCol.Name ("star-wars")).matchesRow b.row = true → a = b) ∧
      (∀ w, find_audio_row exTbl2 false
          (UniqueAudioTableCol.Name ("star-wars")) = some w →
        ∃ rr ∈ exTbl2, rr.row = w ∧
          (UniqueAudioTableCol.Name ("star-wars")).matchesRow w = true)) :=
  ⟨by decide,
    find_audio_row_not_found_semantics exTbl2 (UniqueAudioTableCol.Name ("star-wars"))
      (by decide) (by decide) (by decide)⟩

/-- C10: within a successfully fetched page, a row failing the TryFrom
conversion is dropped and only logged: next_page returns ok with exactly the
converting rows of the queried range, in order, never an error, so the
returned page can hold fewer rows than the queried range did. -/
theorem next_page_drops_unconvertible_rows (p : AudioTablePaginator)
    (tbl : List RawRow) :
    (next_page p tbl none).fst =
      Except.ok (((queriedPage p tbl).filter (fun r => r.convOk)).map
        (fun r => r.row)) ∧
    (((queriedPage p tbl).filter (fun r => r.convOk)).map
      (fun r => r.row)).length ≤ (queriedPage p tbl).length ∧
    (queriedPage p tbl).length ≤ p.page_limit := by
  refine ⟨?_, ?_, ?_⟩
  · show Except.ok ((queriedPage p tbl).filterMap
      (fun r => if r.convOk then some r.row else none)) = _
    rw [filterMap_conv_eq]
  · rw [List.length_map]
    exact List.length_filter_le _ _
  · exact List.length_take_le _ _

end SoundboardDb
